import Mathlib

/-
Verification of the execution-context kernel (src/packages/effection/src/context.js).

The JS class ExecutionContext is embedded shallowly: a heap maps node ids to
node records; the mutually recursive methods (halt, resume, fail, finalize,
trapExit, link) become a fuel-indexed mutual interpreter returning
Option (Heap × List Ev), where none means either an exception (a defect such
as self-linking) or fuel exhaustion, and the event list records the halt calls
a finalizing node issues to its children and each exit-hook invocation.
JS values are modelled by an explicit Value type carrying JS truthiness, so
that the source's falsy-fallback expression (result || this.result) is exact.
Exit hooks are opaque actions identified by ids; an environment
(env : Nat → Bool) says which hooks throw when invoked.
-/

namespace Effection

/-- The six lifecycle states of an ExecutionContext. -/
inductive St where
  | unstarted
  | running
  | waiting
  | completed
  | errored
  | halted
deriving DecidableEq, Repr

/-- A JS value as seen by this kernel: undefined, a context object (by node
id), or any other value carrying only its JS truthiness and an identity tag. -/
inductive Value where
  | undef
  | ctx (i : Nat)
  | raw (tr : Bool) (tag : Nat)
deriving DecidableEq, Repr

/-- JS truthiness of a value (objects are truthy, undefined is falsy). -/
def Value.truthy : Value → Bool
  | .undef => false
  | .ctx _ => true
  | .raw tr _ => tr

/-- Modelled from the spec: the task-chain extraction contract of section 6
(the import contextOf from the repository's resource.js, which is not part of
the kernel source): extractTask(value) returns the task node when the settled
value is itself a nested task, and none otherwise. -/
def contextOf : Value → Option Nat
  | .ctx i => some i
  | _ => none

/-- The settlement state of one Promise created by the promise getter.
A halted node rejects with a HaltError wrapping the reason, kept distinct
from an ordinary rejection. -/
inductive PSt where
  | pending
  | resolved (v : Value)
  | rejectedErr (v : Value)
  | rejectedHalt (v : Value)
deriving DecidableEq, Repr

/-- One ExecutionContext. promiseId models the resolve/reject pair stored by
the promise getter (it names the promise those callbacks settle); operation
is the opaque operation bound by enter, by id. -/
structure Node where
  isRequired : Bool := false
  blockOnReturnedContext : Bool := false
  state : St := .unstarted
  result : Value := .undef
  children : List Nat := []
  exitHooks : List Nat := []
  parent : Option Nat := none
  promiseId : Option Nat := none
  operation : Option Nat := none
deriving DecidableEq, Repr

/-- isBlocking: isRunning or isWaiting or isUnstarted. -/
def Node.isBlocking (n : Node) : Bool :=
  n.state == .running || n.state == .waiting || n.state == .unstarted

/-- The store: all nodes by id, all promises by id, and the next fresh
promise id. -/
structure Heap where
  nodes : Nat → Option Node
  promises : Nat → Option PSt
  nextProm : Nat

/-- Overwrite node i. -/
def Heap.setNode (h : Heap) (i : Nat) (n : Node) : Heap :=
  { h with nodes := fun j => if j = i then some n else h.nodes j }

/-- Update node i in place when it exists. -/
def Heap.modifyNode (h : Heap) (i : Nat) (f : Node → Node) : Heap :=
  match h.nodes i with
  | some n => h.setNode i (f n)
  | none => h

/-- Settle promise pid; settling an already-settled promise is a no-op,
as for a JS Promise. -/
def Heap.settleProm (h : Heap) (pid : Nat) (st : PSt) : Heap :=
  match h.promises pid with
  | some .pending => { h with promises := fun q => if q = pid then some st else h.promises q }
  | _ => h

/-- Events observed during a run: a finalizing node (caller) invoking
child.halt(result), and an exit hook running (recording whether it threw). -/
inductive Ev where
  | haltCall (caller target : Nat) (reason : Value)
  | hookRun (hid : Nat) (threw : Bool)
deriving DecidableEq, Repr

/-- unlink: child.parent = null; this.children.delete(child). -/
def unlink (h : Heap) (p c : Nat) : Heap :=
  (h.modifyNode c (fun n => { n with parent := none })).modifyNode p
    (fun n => { n with children := n.children.erase c })

/-- finalizePromise: settle the promise whose resolve/reject this node holds,
according to the node's terminal state. -/
def finalizePromise (h : Heap) (i : Nat) : Heap :=
  match h.nodes i with
  | none => h
  | some n =>
    match n.promiseId with
    | none => h
    | some pid =>
      if n.state = .completed then h.settleProm pid (.resolved n.result)
      else if n.state = .errored then h.settleProm pid (.rejectedErr n.result)
      else if n.state = .halted then h.settleProm pid (.rejectedHalt n.result)
      else h

/-- The promise getter: create a fresh pending promise, store its
resolve/reject pair on the node (overwriting any previous pair), run
finalizePromise, and hand the fresh promise back. -/
def promiseGet (h : Heap) (i : Nat) : Heap × Nat :=
  let pid := h.nextProm
  let h1 : Heap :=
    { nodes := h.nodes
      promises := fun q => if q = pid then some .pending else h.promises q
      nextProm := pid + 1 }
  let h2 := h1.modifyNode i (fun n => { n with promiseId := some pid })
  (finalizePromise h2 i, pid)

/-- c.isRequired for a child looked up by id. -/
def isRequiredAt (h : Heap) (c : Nat) : Bool :=
  match h.nodes c with
  | some m => m.isRequired
  | none => false

/-- The predicate tested by resume over this.children:
(c === value) ? this.blockOnReturnedContext : c.isRequired. -/
def childRelevant (h : Heap) (bORC : Bool) (v : Value) (c : Nat) : Bool :=
  if v = Value.ctx c then bORC else isRequiredAt h c

/-- One pending call of the interpreter: the mutually recursive methods of
ExecutionContext (halt, fail, resume, finalize, its children loop, trapExit,
link) as data, so the whole mutual recursion is one structurally recursive
function on fuel that the kernel can evaluate. -/
inductive Call where
  | halt (i : Nat) (reason : Value)
  | fail (i : Nat) (e : Value)
  | resume (i : Nat) (v : Value)
  | finalize (i : Nat) (st : St) (res : Value)
  | cascade (i : Nat) (res : Value) (cs : List Nat)
  | trapExit (p c : Nat)
  | link (p c : Nat)

/-- The interpreter for the mutually recursive methods of context.js; each
branch is the direct translation of the corresponding method (see the
wrappers below for the per-method reading). none is fuel exhaustion or a
thrown defect. -/
def run (env : Nat → Bool) : Nat → Call → Heap → Option (Heap × List Ev)
  | 0, _, _ => none
  | fuel+1, .halt i reason, h =>
    -- halt(reason): if blocking, finalize as halted
    match h.nodes i with
    | none => none
    | some n =>
      if n.isBlocking then run env fuel (.finalize i .halted reason) h else some (h, [])
  | fuel+1, .fail i e, h =>
    -- fail(error): if blocking, finalize as errored
    match h.nodes i with
    | none => none
    | some n =>
      if n.isBlocking then run env fuel (.finalize i .errored e) h else some (h, [])
  | fuel+1, .resume i v, h =>
    -- resume(value): record the value and link its embedded context when
    -- running, then either wait (a child is relevant) or finalize completed
    match h.nodes i with
    | none => none
    | some n =>
      if n.isBlocking then do
        let (h1, log1) ←
          if n.state = .running then
            let h0 := h.setNode i { n with result := v }
            match contextOf v with
            | some j => run env fuel (.link i j) h0
            | none => some (h0, ([] : List Ev))
          else some (h, ([] : List Ev))
        match h1.nodes i with
        | none => none
        | some n1 =>
          if n1.children.any (childRelevant h1 n1.blockOnReturnedContext v) then
            some (h1.setNode i { n1 with state := .waiting }, log1)
          else do
            let (h2, log2) ← run env fuel (.finalize i .completed v) h1
            some (h2, log1 ++ log2)
      else some (h, [])
  | fuel+1, .finalize i st res, h =>
    -- finalize(state, result): set state, store the truthy result, halt the
    -- children in reverse order, run exit hooks in reverse order, notify the
    -- parent, settle the promise facade
    match h.nodes i with
    | none => none
    | some n =>
      if n.isBlocking then do
        let n1 : Node := { n with state := st, result := if res.truthy then res else n.result }
        let h1 := h.setNode i n1
        let (h2, log1) ← run env fuel (.cascade i res n1.children.reverse) h1
        match h2.nodes i with
        | none => none
        | some n2 =>
          let log2 := n2.exitHooks.reverse.map (fun hid => Ev.hookRun hid (env hid))
          let (h3, log3) ←
            match n2.parent with
            | some p => run env fuel (.trapExit p i) h2
            | none => some (h2, ([] : List Ev))
          some (finalizePromise h3 i, log1 ++ log2 ++ log3)
      else some (h, [])
  | _+1, .cascade _ _ [], h => some (h, [])
  | fuel+1, .cascade i res (c :: cs), h =>
    -- the children loop of finalize: halt each child with the result
    -- argument unless blockOnReturnedContext is false and the child is the
    -- context embedded in this.result
    match h.nodes i with
    | none => none
    | some ni => do
      let (h1, log1) ←
        if ni.blockOnReturnedContext || contextOf ni.result != some c then do
          let (ha, la) ← run env fuel (.halt c res) h
          some (ha, Ev.haltCall i c res :: la)
        else some (h, ([] : List Ev))
      let (h2, log2) ← run env fuel (.cascade i res cs) h1
      some (h2, log1 ++ log2)
  | fuel+1, .trapExit p c, h => do
    -- trapExit(child): unlink it; adopt a context embedded in a completed
    -- child result; propagate an errored child via fail; otherwise complete
    -- this node when waiting with no required child left
    let h1 := unlink h p c
    match h1.nodes c with
    | none => none
    | some cn => do
      let (h2, log1) ←
        if cn.state = .completed then
          match contextOf cn.result with
          | some j => run env fuel (.link p j) h1
          | none => some (h1, ([] : List Ev))
        else some (h1, ([] : List Ev))
      match h2.nodes c with
      | none => none
      | some cn2 =>
        if cn2.state = .errored then do
          let (h3, log2) ← run env fuel (.fail p cn2.result) h2
          some (h3, log1 ++ log2)
        else
          match h2.nodes p with
          | none => none
          | some pn =>
            if pn.state = .waiting && pn.children.all (fun k => !(isRequiredAt h2 k)) then do
              let (h3, log2) ← run env fuel (.finalize p .completed .undef) h2
              some (h3, log1 ++ log2)
            else some (h2, log1)
  | fuel+1, .link p c, h =>
    -- link(child): self-linking throws; a non-blocking parent halts the
    -- child; the child leaves its previous parent; a still-blocking child is
    -- attached, a settled one goes to trapExit at once
    if p = c then none
    else
      match h.nodes p with
      | none => none
      | some pn => do
        let (h1, log1) ←
          if !pn.isBlocking then run env fuel (.halt c .undef) h
          else some (h, ([] : List Ev))
        match h1.nodes c with
        | none => none
        | some cn =>
          let h2 :=
            match cn.parent with
            | some q => unlink h1 q c
            | none => h1
          match h2.nodes c with
          | none => none
          | some cn2 =>
            if cn2.isBlocking then
              let h3 := h2.modifyNode c (fun m => { m with parent := some p })
              let h4 := h3.modifyNode p (fun m =>
                { m with children := if c ∈ m.children then m.children else m.children ++ [c] })
              some (h4, log1)
            else do
              let (h3, log2) ← run env fuel (.trapExit p c) h2
              some (h3, log1 ++ log2)

/-- halt(reason). -/
def halt (env : Nat → Bool) (fuel : Nat) (h : Heap) (i : Nat) (reason : Value) :
    Option (Heap × List Ev) := run env fuel (.halt i reason) h

/-- fail(error). -/
def fail (env : Nat → Bool) (fuel : Nat) (h : Heap) (i : Nat) (e : Value) :
    Option (Heap × List Ev) := run env fuel (.fail i e) h

/-- resume(value). -/
def resume (env : Nat → Bool) (fuel : Nat) (h : Heap) (i : Nat) (v : Value) :
    Option (Heap × List Ev) := run env fuel (.resume i v) h

/-- finalize(state, result). -/
def finalize (env : Nat → Bool) (fuel : Nat) (h : Heap) (i : Nat) (st : St) (res : Value) :
    Option (Heap × List Ev) := run env fuel (.finalize i st res) h

/-- The children loop of finalize. -/
def cascade (env : Nat → Bool) (fuel : Nat) (h : Heap) (i : Nat) (res : Value)
    (cs : List Nat) : Option (Heap × List Ev) := run env fuel (.cascade i res cs) h

/-- trapExit(child). -/
def trapExit (env : Nat → Bool) (fuel : Nat) (h : Heap) (p c : Nat) :
    Option (Heap × List Ev) := run env fuel (.trapExit p c) h

/-- link(child). -/
def link (env : Nat → Bool) (fuel : Nat) (h : Heap) (p c : Nat) :
    Option (Heap × List Ev) := run env fuel (.link p c) h

/-- The unregister value handed back by ensure: either delete this hook from
this node's exitHooks, or the identity function x => x. -/
inductive Unreg where
  | del (i hid : Nat)
  | noop
deriving DecidableEq, Repr

/-- Applying an unregister function. -/
def applyUnreg (h : Heap) : Unreg → Heap
  | .del i hid => h.modifyNode i (fun n => { n with exitHooks := n.exitHooks.erase hid })
  | .noop => h

/-- ensure(hook): on a blocking node, queue the hook and hand back its
unregister; on a settled node, run the hook at once (unprotected, so a throw
escapes, modelled as none) and hand back the identity. -/
def ensure (env : Nat → Bool) (h : Heap) (i : Nat) (hid : Nat) :
    Option (Heap × List Ev × Unreg) :=
  match h.nodes i with
  | none => none
  | some n =>
    if n.isBlocking then
      some (h.setNode i
        { n with exitHooks := if hid ∈ n.exitHooks then n.exitHooks else n.exitHooks ++ [hid] },
        [], Unreg.del i hid)
    else
      if env hid then none
      else some (h, [Ev.hookRun hid false], Unreg.noop)

/-- enter(operation): only from unstarted; bind the operation and move to
running. The controller invocation itself is the external dispatch contract
of spec section 4.6 and is driven by later calls to resume/fail. A call on a
non-unstarted node throws (none). -/
def enter (h : Heap) (i : Nat) (opId : Nat) : Option Heap :=
  match h.nodes i with
  | none => none
  | some n =>
    if n.state = .unstarted then
      some (h.setNode i { n with operation := some opId, state := .running })
    else none

/-- The condition under which the finalize cascade halts a child c:
blockOnReturnedContext or the child is not the context embedded in the stored
result (the spared child is the one embedded in this.result when
blockOnReturnedContext is false). -/
def haltCond (b : Bool) (r : Value) (c : Nat) : Bool := b || contextOf r != some c

/-- A heap from an association list of nodes, for concrete runs. -/
def mkHeap (l : List (Nat × Node)) : Heap :=
  { nodes := fun j => (l.find? (fun pr => pr.1 == j)).map Prod.snd
    promises := fun _ => none
    nextProm := 0 }

/-- State of node i, for stating runs. -/
def Heap.stateOf (h : Heap) (i : Nat) : Option St := (h.nodes i).map Node.state

/-- Result of node i. -/
def Heap.resultOf (h : Heap) (i : Nat) : Option Value := (h.nodes i).map Node.result

/-- Children of node i. -/
def Heap.childrenOf (h : Heap) (i : Nat) : Option (List Nat) := (h.nodes i).map Node.children



theorem halt_leaf (env : Nat → Bool) (fuel : Nat) (hfuel : 3 ≤ fuel)
    (h : Heap) (c i : Nat) (m ni : Node) (res : Value)
    (hc : h.nodes c = some m) (hm : m.isBlocking = true)
    (hpar : m.parent = some i) (hch : m.children = ([] : List Nat))
    (hhk : m.exitHooks = ([] : List Nat)) (hpr : m.promiseId = none)
    (hi : h.nodes i = some ni) (hni : ni.isBlocking = false)
    (hne : c ≠ i) :
    ∃ h', halt env fuel h c res = some (h', []) ∧
      h'.nodes c = some { m with state := .halted,
                                 result := if res.truthy then res else m.result,
                                 parent := none } ∧
      h'.nodes i = some { ni with children := ni.children.erase c } ∧
      (∀ j, j ≠ c → j ≠ i → h'.nodes j = h.nodes j) ∧
      h'.promises = h.promises ∧ h'.nextProm = h.nextProm := by
  have hw : ni.state ≠ .waiting := by
    intro e; rw [Node.isBlocking, e] at hni; simp at hni
  obtain ⟨f, rfl⟩ : ∃ f, fuel = f + 3 := ⟨fuel - 3, by omega⟩
  refine ⟨((h.setNode c { m with state := .halted,
                                 result := if res.truthy then res else m.result }).setNode c
      { m with state := .halted, result := if res.truthy then res else m.result,
               parent := none }).setNode i { ni with children := ni.children.erase c },
    ?_, ?_, ?_, ?_, ?_, ?_⟩
  · simp only [show f + 3 = (f+2)+1 from rfl, show f + 2 = (f+1)+1 from rfl]
    simp [halt, run, unlink, finalizePromise,
      Heap.setNode, Heap.modifyNode, hc, hm, hch, hhk, hpr, hpar, hi, hne,
      hne.symm, hw, Option.bind]
  · simp [Heap.setNode, hne]
  · simp [Heap.setNode]
  · intro j hjc hji; simp [Heap.setNode, hjc, hji]
  · simp [Heap.setNode]
  · simp [Heap.setNode]



theorem cascade_leaf (env : Nat → Bool) (i : Nat) (res : Value) :
    ∀ (cs : List Nat) (fuel : Nat) (h : Heap) (ni : Node),
      cs.length + 3 ≤ fuel →
      h.nodes i = some ni → ni.isBlocking = false →
      cs.Nodup → i ∉ cs →
      (∀ c ∈ cs, ∃ m, h.nodes c = some m ∧ m.isBlocking = true ∧ m.parent = some i ∧
        m.children = ([] : List Nat) ∧ m.exitHooks = ([] : List Nat) ∧ m.promiseId = none) →
      ∃ h', cascade env fuel h i res cs =
          some (h', (cs.filter (haltCond ni.blockOnReturnedContext ni.result)).map
            (fun c => Ev.haltCall i c res)) ∧
        (∃ chl, h'.nodes i = some { ni with children := chl }) ∧
        (∀ c ∈ cs, ∀ m, h.nodes c = some m →
          h'.nodes c = some (if haltCond ni.blockOnReturnedContext ni.result c then
              { m with state := .halted, result := if res.truthy then res else m.result,
                       parent := none }
            else m)) ∧
        (∀ j, j ≠ i → j ∉ cs → h'.nodes j = h.nodes j) ∧
        h'.promises = h.promises ∧ h'.nextProm = h.nextProm := by
  intro cs
  induction cs with
  | nil =>
    intro fuel h ni hfuel hi hni _ _ _
    obtain ⟨f, rfl⟩ : ∃ f, fuel = f + 1 := ⟨fuel - 1, by omega⟩
    refine ⟨h, by simp [cascade, run], ⟨ni.children, hi⟩, by simp, by simp, rfl, rfl⟩
  | cons c cs ih =>
    intro fuel h ni hfuel hi hni hnd hnin hch
    have hlen : (c :: cs).length = cs.length + 1 := rfl
    rw [hlen] at hfuel
    obtain ⟨f, rfl⟩ : ∃ f, fuel = f + 1 := ⟨fuel - 1, by omega⟩
    obtain ⟨m, hc, hm, hpar, hch0, hhk0, hpr0⟩ := hch c (by simp)
    have hci : c ≠ i := by intro e; exact hnin (by simp [e])
    have hnd' : cs.Nodup := (List.nodup_cons.mp hnd).2
    have hcnotcs : c ∉ cs := (List.nodup_cons.mp hnd).1
    have hnin' : i ∉ cs := fun e => hnin (by simp [e])
    by_cases hcond : (ni.blockOnReturnedContext || contextOf ni.result != some c) = true
    · obtain ⟨h1, hrun, hc1, hi1, hfr, hpm1, hnp1⟩ :=
        halt_leaf env f (by omega) h c i m ni res hc hm hpar hch0 hhk0 hpr0 hi hni hci
      obtain ⟨h2, hrun2, ⟨chl, hi2⟩, hkids2, hfr2, hpm2, hnp2⟩ :=
        ih f h1 { ni with children := ni.children.erase c } (by omega) hi1
          (by simpa [Node.isBlocking] using hni)
          hnd' hnin'
          (by
            intro c' hc'
            obtain ⟨m', hcm', rest⟩ := hch c' (by simp [hc'])
            have : c' ≠ c := fun e => hcnotcs (e ▸ hc')
            have : h1.nodes c' = some m' := by
              rw [hfr c' ‹c' ≠ c› (fun e => hnin' (e ▸ hc'))]; exact hcm'
            exact ⟨m', this, rest⟩)
      refine ⟨h2, ?_, ?_, ?_, ?_, ?_, ?_⟩
      · -- the run equation
        simp only [halt] at hrun
        simp only [cascade] at hrun2 ⊢
        simp only [run, hi, hcond, if_true, hrun, Option.bind]
        simp [hrun2, haltCond, hcond, List.filter_cons]
      · exact ⟨chl, hi2⟩
      · intro c' hmem m' hm'
        rcases List.mem_cons.mp hmem with rfl | hmem'
        · -- the halted child is outside cs, so h2 preserves it
          have := hfr2 c' hci hcnotcs
          rw [this, hc1]
          rw [hc] at hm'
          cases hm'
          simp [haltCond, hcond]
        · have hne' : c' ≠ c := fun e => hcnotcs (e ▸ hmem')
          have h1c' : h1.nodes c' = some m' := by
            rw [hfr c' hne' (fun e => hnin' (e ▸ hmem'))]; exact hm'
          have := hkids2 c' hmem' m' h1c'
          simpa [haltCond] using this
      · intro j hji hjcs
        have hjc : j ≠ c := fun e => hjcs (by simp [e])
        have hjcs' : j ∉ cs := fun e => hjcs (by simp [e])
        rw [hfr2 j hji hjcs', hfr j hjc hji]
      · rw [hpm2, hpm1]
      · rw [hnp2, hnp1]
    · -- spared branch
      obtain ⟨h2, hrun2, hni2, hkids2, hfr2, hpm2, hnp2⟩ :=
        ih f h ni (by omega) hi hni hnd' hnin'
          (fun c' hc' => hch c' (by simp [hc']))
      refine ⟨h2, ?_, hni2, ?_, ?_, hpm2, hnp2⟩
      · simp only [cascade] at hrun2 ⊢
        simp only [run, hi, hcond, if_false, Option.bind]
        simp [hrun2, haltCond, hcond, List.filter_cons]
      · intro c' hmem m' hm'
        rcases List.mem_cons.mp hmem with rfl | hmem'
        · have := hfr2 c' hci hcnotcs
          rw [this, hm']
          simp [haltCond, hcond]
        · exact hkids2 c' hmem' m' hm'
      · intro j hji hjcs
        exact hfr2 j hji (fun e => hjcs (by simp [e]))



theorem finalize_leaf (env : Nat → Bool) (fuel : Nat) (h : Heap) (i : Nat)
    (n : Node) (st : St) (res : Value)
    (hfuel : n.children.length + 4 ≤ fuel)
    (hi : h.nodes i = some n) (hb : n.isBlocking = true)
    (hst : st = .completed ∨ st = .errored ∨ st = .halted)
    (hpar : n.parent = none) (hpr : n.promiseId = none)
    (hnd : n.children.Nodup) (hnin : i ∉ n.children)
    (hch : ∀ c ∈ n.children, ∃ m, h.nodes c = some m ∧ m.isBlocking = true ∧
      m.parent = some i ∧ m.children = ([] : List Nat) ∧ m.exitHooks = ([] : List Nat) ∧
      m.promiseId = none) :
    ∃ h', finalize env fuel h i st res =
        some (h',
          (n.children.reverse.filter
            (haltCond n.blockOnReturnedContext (if res.truthy then res else n.result))).map
              (fun c => Ev.haltCall i c res)
          ++ n.exitHooks.reverse.map (fun hid => Ev.hookRun hid (env hid))) ∧
      (∃ chl, h'.nodes i = some { n with
        state := st, result := if res.truthy then res else n.result, children := chl }) ∧
      (∀ c ∈ n.children, ∀ m, h.nodes c = some m →
        h'.nodes c = some (if haltCond n.blockOnReturnedContext
            (if res.truthy then res else n.result) c then
            { m with
              state := .halted, result := if res.truthy then res else m.result, parent := none }
          else m)) ∧
      (∀ j, j ≠ i → j ∉ n.children → h'.nodes j = h.nodes j) ∧
      h'.promises = h.promises ∧ h'.nextProm = h.nextProm := by
  obtain ⟨f, rfl⟩ : ∃ f, fuel = f + 1 := ⟨fuel - 1, by omega⟩
  set R : Value := if res.truthy then res else n.result with hR
  set n1 : Node := { n with state := st, result := R } with hn1
  have hn1b : n1.isBlocking = false := by
    rcases hst with rfl | rfl | rfl <;> simp [hn1, Node.isBlocking]
  have hch1 : ∀ c ∈ n.children.reverse, ∃ m,
      (h.setNode i n1).nodes c = some m ∧ m.isBlocking = true ∧ m.parent = some i ∧
      m.children = ([] : List Nat) ∧ m.exitHooks = ([] : List Nat) ∧ m.promiseId = none := by
    intro c hc
    obtain ⟨m, hcm, rest⟩ := hch c (List.mem_reverse.mp hc)
    have hci : c ≠ i := fun e => hnin (e ▸ List.mem_reverse.mp hc)
    exact ⟨m, by simp [Heap.setNode, hci, hcm], rest⟩
  obtain ⟨h2, hrun2, ⟨chl, hi2⟩, hkids2, hfr2, hpm2, hnp2⟩ :=
    cascade_leaf env i res n.children.reverse f (h.setNode i n1) n1
      (by simp; omega)
      (by simp [Heap.setNode]) hn1b
      (by simpa using hnd) (by simpa using hnin) hch1
  refine ⟨h2, ?_, ?_, ?_, ?_, hpm2, hnp2⟩
  · simp only [cascade] at hrun2
    simp only [finalize, run, hi, hb, if_true]
    simp only [Option.bind, hrun2, hi2]
    simp [finalizePromise, hi2, hn1, hpr, hpar]
  · exact ⟨chl, by simpa [hn1] using hi2⟩
  · intro c hc m hm
    have hci : c ≠ i := fun e => hnin (e ▸ hc)
    have : (h.setNode i n1).nodes c = some m := by simp [Heap.setNode, hci, hm]
    simpa [hn1] using hkids2 c (List.mem_reverse.mpr hc) m this
  · intro j hji hjch
    rw [hfr2 j hji (fun e => hjch (List.mem_reverse.mp e))]
    simp [Heap.setNode, hji]



/-- C8: ensure on an already-settled node runs the hook synchronously exactly
once during the ensure call itself (the event list is exactly one hook run),
does not add it to exitHooks (the heap is returned unchanged), and returns
the no-op unregister, whose invocation has no effect on the node. -/
theorem claim8_ensure_settled (env : Nat → Bool) (h : Heap) (i hid : Nat)
    (n : Node) (hi : h.nodes i = some n) (hb : n.isBlocking = false)
    (hnt : env hid = false) :
    ensure env h i hid = some (h, [Ev.hookRun hid false], Unreg.noop) ∧
    applyUnreg h Unreg.noop = h :=
  ⟨by simp [ensure, hi, hb, hnt], rfl⟩

def w8Heap : Heap := mkHeap [(0, { state := .completed })]

theorem claim8_witness :
    ensure (fun _ => false) w8Heap 0 5 = some (w8Heap, [Ev.hookRun 5 false], Unreg.noop) ∧
    applyUnreg w8Heap Unreg.noop = w8Heap :=
  claim8_ensure_settled (fun _ => false) w8Heap 0 5 { state := .completed } rfl rfl rfl

/-- C6: for a node in a terminal state the deferred-result facade settles
according to that state: completed resolves with the stored result, errored
rejects with the stored result, and halted rejects with the distinct
HaltError kind wrapping the stored reason. -/
theorem claim6_facade_terminal_mapping (h : Heap) (i : Nat) (n : Node)
    (hi : h.nodes i = some n) :
    (n.state = .completed →
      (promiseGet h i).1.promises (promiseGet h i).2 = some (.resolved n.result)) ∧
    (n.state = .errored →
      (promiseGet h i).1.promises (promiseGet h i).2 = some (.rejectedErr n.result)) ∧
    (n.state = .halted →
      (promiseGet h i).1.promises (promiseGet h i).2 = some (.rejectedHalt n.result)) := by
  refine ⟨fun hst => ?_, fun hst => ?_, fun hst => ?_⟩ <;>
    simp [promiseGet, Heap.modifyNode, Heap.setNode, finalizePromise, Heap.settleProm, hi, hst]

def w6Heap : Heap := mkHeap [(0, { state := .halted, result := .raw true 3 })]

theorem claim6_witness :
    (({ state := .halted, result := .raw true 3 } : Node).state = .completed →
      (promiseGet w6Heap 0).1.promises (promiseGet w6Heap 0).2
        = some (.resolved (.raw true 3))) ∧
    (({ state := .halted, result := .raw true 3 } : Node).state = .errored →
      (promiseGet w6Heap 0).1.promises (promiseGet w6Heap 0).2
        = some (.rejectedErr (.raw true 3))) ∧
    (({ state := .halted, result := .raw true 3 } : Node).state = .halted →
      (promiseGet w6Heap 0).1.promises (promiseGet w6Heap 0).2
        = some (.rejectedHalt (.raw true 3))) :=
  claim6_facade_terminal_mapping w6Heap 0 { state := .halted, result := .raw true 3 } rfl

def c3Heap : Heap := mkHeap [(0, { state := .running, result := .raw true 42 })]

/-- C3 is refuted: on a blocking node whose stored result is the truthy value
tagged 42, finalize(completed, 0) with the provided falsy result keeps the
stored 42 — the provided falsy result is not stored, contrary to the claim. -/
theorem claim3_counterexample :
    (finalize (fun _ => false) 12 c3Heap 0 .completed (.raw false 0)).map
        (fun r => r.1.resultOf 0) = some (some (.raw true 42)) ∧
    Value.raw true 42 ≠ .raw false 0 := by decide

/-- C3 corrected: finalize on a blocking node stores the provided result
exactly when it is truthy; for an absent (undefined) or falsy provided result
the previously stored result is retained (result || this.result). -/
theorem claim3_finalize_result_policy (env : Nat → Bool) (fuel : Nat) (h : Heap)
    (i : Nat) (n : Node) (st : St) (res : Value)
    (hfuel : n.children.length + 4 ≤ fuel)
    (hi : h.nodes i = some n) (hb : n.isBlocking = true)
    (hst : st = .completed ∨ st = .errored ∨ st = .halted)
    (hpar : n.parent = none) (hpr : n.promiseId = none)
    (hnd : n.children.Nodup) (hnin : i ∉ n.children)
    (hch : ∀ c ∈ n.children, ∃ m, h.nodes c = some m ∧ m.isBlocking = true ∧
      m.parent = some i ∧ m.children = ([] : List Nat) ∧ m.exitHooks = ([] : List Nat) ∧
      m.promiseId = none) :
    ∃ h' log, finalize env fuel h i st res = some (h', log) ∧
      h'.resultOf i = some (if res.truthy then res else n.result) := by
  obtain ⟨h', hrun, ⟨chl, hi'⟩, -, -, -, -⟩ :=
    finalize_leaf env fuel h i n st res hfuel hi hb hst hpar hpr hnd hnin hch
  exact ⟨h', _, hrun, by simp [Heap.resultOf, hi']⟩

def w3Heap : Heap := mkHeap [(0, { state := .running })]

theorem claim3_witness :
    ∃ h' log, finalize (fun _ => false) 9 w3Heap 0 .completed (.raw true 7)
        = some (h', log) ∧
      h'.resultOf 0 = some (.raw true 7) :=
  claim3_finalize_result_policy (fun _ => false) 9 w3Heap 0 { state := .running }
    .completed (.raw true 7) (by decide) rfl rfl (Or.inl rfl) rfl rfl
    (by simp) (by simp) (by simp)

def c2Heap : Heap := mkHeap
  [(0, { state := .completed, result := .ctx 1, children := [1] }),
   (1, { state := .running, parent := some 0 })]

/-- C2 is refuted in its children clause: node 0 is settled (completed) with
the spared child 1 still among its children; when that spared child is later
halted, trapExit on the settled node removes it, so the settled node's
children collection changes from the list holding 1 to the empty list. -/
theorem claim2_counterexample :
    c2Heap.childrenOf 0 = some [1] ∧
    (halt (fun _ => false) 12 c2Heap 1 .undef).map
        (fun r => (r.1.childrenOf 0, r.1.stateOf 0))
      = some (some [], some .completed) := by decide

/-- C2 corrected: on any settled node, halt, fail, resume and finalize are
complete no-ops (the heap and event list come back unchanged and empty), and
the settled node's state, result and exitHooks are also preserved when a
previously spared child later settles and triggers trapExit on it — but the
children collection is not immutable: the spared child is removed from it. -/
theorem claim2_settled_immutability (env : Nat → Bool) :
    (∀ fuel h i n v st r, h.nodes i = some n → n.isBlocking = false →
      halt env (fuel+1) h i v = some (h, []) ∧
      fail env (fuel+1) h i v = some (h, []) ∧
      resume env (fuel+1) h i v = some (h, []) ∧
      finalize env (fuel+1) h i st r = some (h, [])) ∧
    (∀ fuel h p c pn cn r, 3 ≤ fuel →
      h.nodes p = some pn → pn.isBlocking = false →
      h.nodes c = some cn → cn.isBlocking = true → cn.parent = some p →
      cn.children = ([] : List Nat) → cn.exitHooks = ([] : List Nat) →
      cn.promiseId = none → c ≠ p →
      ∃ h', halt env fuel h c r = some (h', []) ∧
        ∃ pm, h'.nodes p = some pm ∧ pm.state = pn.state ∧ pm.result = pn.result ∧
          pm.exitHooks = pn.exitHooks ∧ pm.children = pn.children.erase c) := by
  constructor
  · intro fuel h i n v st r hi hb
    refine ⟨?_, ?_, ?_, ?_⟩ <;> simp [halt, fail, resume, finalize, run, hi, hb]
  · intro fuel h p c pn cn r hfuel hp hpb hc hcb hcp hcch hchk hcpr hcpne
    obtain ⟨h', hrun, -, hp', -, -, -⟩ :=
      halt_leaf env fuel hfuel h c p cn pn r hc hcb hcp hcch hchk hcpr hp hpb hcpne
    exact ⟨h', hrun, ⟨_, hp', rfl, rfl, rfl, rfl⟩⟩

def w2Heap : Heap := mkHeap [(0, { state := .halted, result := .raw true 1 })]

theorem claim2_witness :
    (halt (fun _ => false) 9 w2Heap 0 .undef = some (w2Heap, []) ∧
     fail (fun _ => false) 9 w2Heap 0 .undef = some (w2Heap, []) ∧
     resume (fun _ => false) 9 w2Heap 0 .undef = some (w2Heap, []) ∧
     finalize (fun _ => false) 9 w2Heap 0 .completed .undef = some (w2Heap, [])) ∧
    (∃ h', halt (fun _ => false) 9 c2Heap 1 .undef = some (h', []) ∧
      ∃ pm, h'.nodes 0 = some pm ∧
        pm.state = ({ state := .completed, result := .ctx 1, children := [1] } : Node).state ∧
        pm.result = ({ state := .completed, result := .ctx 1, children := [1] } : Node).result ∧
        pm.exitHooks = ({ state := .completed, result := .ctx 1, children := [1] } : Node).exitHooks ∧
        pm.children = ([1] : List Nat).erase 1) :=
  ⟨(claim2_settled_immutability (fun _ => false)).1 8 w2Heap 0
      { state := .halted, result := .raw true 1 } .undef .completed .undef rfl rfl,
   (claim2_settled_immutability (fun _ => false)).2 9 c2Heap 0 1
      { state := .completed, result := .ctx 1, children := [1] }
      { state := .running, parent := some 0 } .undef (by omega) rfl rfl rfl rfl rfl rfl
      rfl rfl (by decide)⟩

def c9Heap : Heap := mkHeap [(0, {})]

/-- C9 is refuted in its result clause: resume with the falsy value 0 on a
never-entered node settles it as completed, but the stored result is
undefined, not the given falsy value. -/
theorem claim9_counterexample :
    (resume (fun _ => false) 12 c9Heap 0 (.raw false 0)).map
        (fun r => (r.1.stateOf 0, r.1.resultOf 0))
      = some (some .completed, some .undef) ∧
    Value.undef ≠ .raw false 0 := by decide

/-- C9 corrected: because unstarted counts as blocking, resume, fail and halt
on a never-entered node with no children settle it directly as completed,
errored or halted respectively — storing the given value only when it is
truthy (the prior undefined result is retained for a falsy value) — without
the node ever passing through running or binding an operation. -/
theorem claim9_unstarted_settles (env : Nat → Bool) (fuel : Nat) (h : Heap)
    (i : Nat) (n : Node) (v e r : Value)
    (hfuel : 5 ≤ fuel) (hi : h.nodes i = some n) (hst : n.state = .unstarted)
    (hch : n.children = ([] : List Nat)) (hpar : n.parent = none)
    (hpr : n.promiseId = none) (hop : n.operation = none) :
    (∃ h' log, resume env fuel h i v = some (h', log) ∧ ∃ m, h'.nodes i = some m ∧
      m.state = .completed ∧ m.result = (if v.truthy then v else n.result) ∧
      m.operation = none) ∧
    (∃ h' log, fail env fuel h i e = some (h', log) ∧ ∃ m, h'.nodes i = some m ∧
      m.state = .errored ∧ m.result = (if e.truthy then e else n.result) ∧
      m.operation = none) ∧
    (∃ h' log, halt env fuel h i r = some (h', log) ∧ ∃ m, h'.nodes i = some m ∧
      m.state = .halted ∧ m.result = (if r.truthy then r else n.result) ∧
      m.operation = none) := by
  have hb : n.isBlocking = true := by simp [Node.isBlocking, hst]
  have hrunning : ¬ n.state = .running := by simp [hst]
  obtain ⟨f, rfl⟩ : ∃ f, fuel = f + 1 := ⟨fuel - 1, by omega⟩
  refine ⟨?_, ?_, ?_⟩
  · obtain ⟨h', hrun, ⟨chl, hi'⟩, -, -, -, -⟩ :=
      finalize_leaf env f h i n .completed v (by simp [hch]; omega) hi hb
        (Or.inl rfl) hpar hpr (by simp [hch]) (by simp [hch]) (by simp [hch])
    obtain ⟨L, hrunL⟩ : ∃ L, finalize env f h i .completed v = some (h', L) := ⟨_, hrun⟩
    simp only [finalize] at hrunL
    refine ⟨h', L, ?_, ⟨_, hi', rfl, rfl, hop⟩⟩
    simp [resume, run, hi, hb, hrunning, hch, hrunL]
  · obtain ⟨h', hrun, ⟨chl, hi'⟩, -, -, -, -⟩ :=
      finalize_leaf env f h i n .errored e (by simp [hch]; omega) hi hb
        (Or.inr (Or.inl rfl)) hpar hpr (by simp [hch]) (by simp [hch]) (by simp [hch])
    obtain ⟨L, hrunL⟩ : ∃ L, finalize env f h i .errored e = some (h', L) := ⟨_, hrun⟩
    simp only [finalize] at hrunL
    refine ⟨h', L, ?_, ⟨_, hi', rfl, rfl, hop⟩⟩
    simp [fail, run, hi, hb, hrunL]
  · obtain ⟨h', hrun, ⟨chl, hi'⟩, -, -, -, -⟩ :=
      finalize_leaf env f h i n .halted r (by simp [hch]; omega) hi hb
        (Or.inr (Or.inr rfl)) hpar hpr (by simp [hch]) (by simp [hch]) (by simp [hch])
    obtain ⟨L, hrunL⟩ : ∃ L, finalize env f h i .halted r = some (h', L) := ⟨_, hrun⟩
    simp only [finalize] at hrunL
    refine ⟨h', L, ?_, ⟨_, hi', rfl, rfl, hop⟩⟩
    simp [halt, run, hi, hb, hrunL]

def w9Heap : Heap := mkHeap [(0, {})]

theorem claim9_witness :
    (∃ h' log, resume (fun _ => false) 9 w9Heap 0 (.raw true 4) = some (h', log) ∧
      ∃ m, h'.nodes 0 = some m ∧ m.state = .completed ∧
        m.result = (if (Value.raw true 4).truthy then .raw true 4 else Value.undef) ∧
        m.operation = none) ∧
    (∃ h' log, fail (fun _ => false) 9 w9Heap 0 (.raw true 5) = some (h', log) ∧
      ∃ m, h'.nodes 0 = some m ∧ m.state = .errored ∧
        m.result = (if (Value.raw true 5).truthy then .raw true 5 else Value.undef) ∧
        m.operation = none) ∧
    (∃ h' log, halt (fun _ => false) 9 w9Heap 0 (.raw true 6) = some (h', log) ∧
      ∃ m, h'.nodes 0 = some m ∧ m.state = .halted ∧
        m.result = (if (Value.raw true 6).truthy then .raw true 6 else Value.undef) ∧
        m.operation = none) :=
  claim9_unstarted_settles (fun _ => false) 9 w9Heap 0 {} (.raw true 4) (.raw true 5)
    (.raw true 6) (by omega) rfl rfl rfl rfl rfl rfl


def c5Heap : Heap := mkHeap
  [(0, { state := .running, children := [1] }),
   (1, { state := .errored, result := .raw false 7, parent := some 0 })]

/-- C5 is refuted in its result clause: child 1 settled as errored with the
falsy error tagged 7; trapExit fails the parent with that error, but the
parent's stored errored result is the previously stored undefined, not the
child error (error || this.result drops a falsy error). -/
theorem claim5_counterexample :
    (trapExit (fun _ => false) 12 c5Heap 0 1).map
        (fun r => (r.1.stateOf 0, r.1.resultOf 0))
      = some (some .errored, some .undef) ∧
    Value.undef ≠ .raw false 7 := by decide

/-- C5 corrected: when a child settles as errored, trapExit fails the parent
with the child's result, so the parent settles as errored and stores the
first child error when that error is truthy (a falsy first error leaves the
previously stored result in place); any later fail on the settled parent is
a complete no-op, so its error is dropped. -/
theorem claim5_first_error_wins (env : Nat → Bool) (fuel : Nat) (h : Heap)
    (p c : Nat) (pn cn : Node)
    (hfuel : pn.children.length + 6 ≤ fuel)
    (hp : h.nodes p = some pn) (hpb : pn.isBlocking = true)
    (hc : h.nodes c = some cn) (hcs : cn.state = .errored)
    (hpar : pn.parent = none) (hpr : pn.promiseId = none)
    (hnd : pn.children.Nodup) (hnin : p ∉ pn.children) (hpc : p ≠ c)
    (hch : ∀ k ∈ pn.children.erase c, ∃ m, h.nodes k = some m ∧ m.isBlocking = true ∧
      m.parent = some p ∧ m.children = ([] : List Nat) ∧ m.exitHooks = ([] : List Nat) ∧
      m.promiseId = none) :
    (∃ h' log, trapExit env fuel h p c = some (h', log) ∧
      h'.stateOf p = some .errored ∧
      h'.resultOf p = some (if cn.result.truthy then cn.result else pn.result)) ∧
    (∀ (h2 : Heap) (j : Nat) (m : Node) (e2 : Value) (f : Nat),
      h2.nodes j = some m → m.isBlocking = false →
      fail env (f+1) h2 j e2 = some (h2, [])) := by
  constructor
  · obtain ⟨f, rfl⟩ : ∃ f, fuel = f + 1 + 1 := ⟨fuel - 2, by omega⟩
    have hTnodesC : (unlink h p c).nodes c = some { cn with parent := none } := by
      simp [unlink, Heap.modifyNode, Heap.setNode, hc, hp, hpc, hpc.symm]
    have hTnodesP : (unlink h p c).nodes p
        = some { pn with children := pn.children.erase c } := by
      simp [unlink, Heap.modifyNode, Heap.setNode, hc, hp, hpc, hpc.symm]
    have hlen := List.length_erase_le c pn.children
    obtain ⟨h', hrun, ⟨chl, hp'⟩, -, -, -, -⟩ :=
      finalize_leaf env f (unlink h p c) p { pn with children := pn.children.erase c }
        .errored cn.result
        (by show (pn.children.erase c).length + 4 ≤ f; omega)
        hTnodesP (by simpa [Node.isBlocking] using hpb)
        (Or.inr (Or.inl rfl)) hpar hpr
        (hnd.erase c) (fun e => hnin (List.mem_of_mem_erase e))
        (by
          intro k hk
          obtain ⟨m, hkm, rest⟩ := hch k hk
          have hkc : k ≠ c := (hnd.mem_erase_iff.mp hk).1
          have hkp : k ≠ p := fun e => hnin (e ▸ List.mem_of_mem_erase hk)
          refine ⟨m, ?_, rest⟩
          simp [unlink, Heap.modifyNode, Heap.setNode, hc, hp, hpc, hpc.symm, hkc, hkp, hkm])
    obtain ⟨L, hrunL⟩ : ∃ L, finalize env f (unlink h p c) p .errored cn.result
        = some (h', L) := ⟨_, hrun⟩
    simp only [finalize] at hrunL
    have hpb' : ({ pn with children := pn.children.erase c } : Node).isBlocking = true := by
      simpa [Node.isBlocking] using hpb
    refine ⟨h', L, ?_, ?_, ?_⟩
    · simp [trapExit, run, hTnodesC, hTnodesP, hcs, hrunL, hpb']
    · simp [Heap.stateOf, hp']
    · simp [Heap.resultOf, hp']
  · intro h2 j m e2 f hj hm
    simp [fail, run, hj, hm]

def w5Heap : Heap := mkHeap
  [(0, { state := .running, children := [1, 2] }),
   (1, { state := .errored, result := .raw true 9, parent := some 0 }),
   (2, { state := .running, parent := some 0 })]

theorem claim5_witness :
    (∃ h' log, trapExit (fun _ => false) 12 w5Heap 0 1 = some (h', log) ∧
      h'.stateOf 0 = some .errored ∧
      h'.resultOf 0 = some (.raw true 9)) ∧
    (∀ (h2 : Heap) (j : Nat) (m : Node) (e2 : Value) (f : Nat),
      h2.nodes j = some m → m.isBlocking = false →
      fail (fun _ => false) (f+1) h2 j e2 = some (h2, [])) :=
  claim5_first_error_wins (fun _ => false) 12 w5Heap 0 1
    { state := .running, children := [1, 2] }
    { state := .errored, result := .raw true 9, parent := some 0 }
    (by decide) rfl rfl rfl rfl rfl rfl (by decide) (by decide) (by decide)
    (by
      intro k hk
      have : k = 2 := by
        have h2 : ([1, 2] : List Nat).erase 1 = [2] := by decide
        rw [h2] at hk
        simpa using hk
      subst this
      exact ⟨{ state := .running, parent := some 0 }, rfl, rfl, rfl, rfl, rfl, rfl⟩)

/-- C10: each access to the promise getter on a not-yet-settled node creates
a fresh promise and overwrites the stored resolve/reject pair, so when the
node later settles, only the promise of the most recent access settles (per
the terminal state) and the promise of the earlier access stays pending
forever. -/
theorem claim10_latest_promise_wins (env : Nat → Bool) (fuel : Nat) (h : Heap)
    (i : Nat) (n : Node) (st : St) (res : Value) (h1 : Heap) (p1 : Nat)
    (h2 : Heap) (p2 : Nat)
    (hfuel : 2 ≤ fuel)
    (hi : h.nodes i = some n) (hb : n.isBlocking = true)
    (hch : n.children = ([] : List Nat)) (hpar : n.parent = none)
    (hst : st = .completed ∨ st = .errored ∨ st = .halted)
    (hg1 : promiseGet h i = (h1, p1)) (hg2 : promiseGet h1 i = (h2, p2)) :
    p1 ≠ p2 ∧ h2.promises p1 = some .pending ∧ h2.promises p2 = some .pending ∧
    ∃ h' log, finalize env fuel h2 i st res = some (h', log) ∧
      h'.promises p1 = some .pending ∧
      h'.promises p2 = some (match st with
        | .completed => PSt.resolved (if res.truthy then res else n.result)
        | .errored => PSt.rejectedErr (if res.truthy then res else n.result)
        | _ => PSt.rejectedHalt (if res.truthy then res else n.result)) := by
  have hnc : n.state ≠ .completed := by
    intro e; rw [Node.isBlocking, e] at hb; simp at hb
  have hne : n.state ≠ .errored := by
    intro e; rw [Node.isBlocking, e] at hb; simp at hb
  have hnh : n.state ≠ .halted := by
    intro e; rw [Node.isBlocking, e] at hb; simp at hb
  have e1 : h1 = (promiseGet h i).1 := by rw [hg1]
  have e1p : p1 = (promiseGet h i).2 := by rw [hg1]
  have e2 : h2 = (promiseGet h1 i).1 := by rw [hg2]
  have e2p : p2 = (promiseGet h1 i).2 := by rw [hg2]
  subst e1 e1p
  have hp1 : (promiseGet h i).2 = h.nextProm := rfl
  have hh1 : (promiseGet h i).1.nextProm = h.nextProm + 1 := by
    simp [promiseGet, Heap.modifyNode, Heap.setNode, finalizePromise, Heap.settleProm,
      hi, hnc, hne, hnh]
  subst e2 e2p
  have hd : h.nextProm ≠ h.nextProm + 1 := by omega
  obtain ⟨f, rfl⟩ : ∃ f, fuel = f + 1 + 1 := ⟨fuel - 2, by omega⟩
  refine ⟨?_, ?_, ?_, ?_⟩
  · simp [promiseGet, Heap.modifyNode, Heap.setNode, finalizePromise, Heap.settleProm,
      hi, hnc, hne, hnh, hd]
  · simp [promiseGet, Heap.modifyNode, Heap.setNode, finalizePromise, Heap.settleProm,
      hi, hnc, hne, hnh, hd]
  · simp [promiseGet, Heap.modifyNode, Heap.setNode, finalizePromise, Heap.settleProm,
      hi, hnc, hne, hnh, hd]
  · have hb' : (n.state = St.running ∨ n.state = St.waiting) ∨ n.state = St.unstarted := by
      simpa [Node.isBlocking] using hb
    rcases hst with rfl | rfl | rfl <;>
      simp [finalize, run, promiseGet, Heap.modifyNode, Heap.setNode, finalizePromise,
        Heap.settleProm, hi, hnc, hne, hnh, hd, hb', hch, Node.isBlocking, hpar]

def w10Heap : Heap := mkHeap [(0, { state := .running, result := .raw true 2 })]

theorem claim10_witness :
    (0 : Nat) ≠ 1 ∧
    ((promiseGet (promiseGet w10Heap 0).1 0).1).promises 0 = some .pending ∧
    ((promiseGet (promiseGet w10Heap 0).1 0).1).promises 1 = some .pending ∧
    ∃ h' log, finalize (fun _ => false) 9
        ((promiseGet (promiseGet w10Heap 0).1 0).1) 0 .halted (.raw true 8)
        = some (h', log) ∧
      h'.promises 0 = some .pending ∧
      h'.promises 1 = some (.rejectedHalt (.raw true 8)) :=
  claim10_latest_promise_wins (fun _ => false) 9 w10Heap 0
    { state := .running, result := .raw true 2 } .halted (.raw true 8)
    (promiseGet w10Heap 0).1 0 (promiseGet (promiseGet w10Heap 0).1 0).1 1
    (by omega) rfl rfl rfl rfl (Or.inr (Or.inr rfl)) rfl rfl


/-- C7: at finalize, the queued exit hooks run exactly once each, in reverse
registration order, whatever subset of them throws (the env); a throwing hook
aborts neither the remaining hooks nor the rest of the finalize sequence:
for every env the run succeeds with the same final heap — the parent is still
notified through trapExit (the node leaves its children) and the facade
promise is still settled — and no hook exception reaches the parent or the
promise (the promise rejects with the halt reason, not a hook error). -/
theorem claim7_hooks_reverse_isolated (env : Nat → Bool) (fuel : Nat) (h : Heap)
    (i p pid : Nat) (n pn : Node) (res : Value)
    (hfuel : 2 ≤ fuel)
    (hi : h.nodes i = some n) (hb : n.isBlocking = true)
    (hch : n.children = ([] : List Nat)) (hparent : n.parent = some p)
    (hpr : n.promiseId = some pid) (hpp : h.promises pid = some .pending)
    (hp : h.nodes p = some pn) (hps : pn.state = .running) (hpi : p ≠ i) :
    ∃ h', finalize env fuel h i .halted res =
        some (h', n.exitHooks.reverse.map (fun hid => Ev.hookRun hid (env hid))) ∧
      h'.nodes i = some { n with state := .halted,
                                 result := if res.truthy then res else n.result,
                                 parent := none } ∧
      h'.nodes p = some { pn with children := pn.children.erase i } ∧
      h'.promises pid = some (.rejectedHalt (if res.truthy then res else n.result)) ∧
      (∀ j, j ≠ i → j ≠ p → h'.nodes j = h.nodes j) ∧
      (∀ q, q ≠ pid → h'.promises q = h.promises q) := by
  obtain ⟨f, rfl⟩ : ∃ f, fuel = f + 1 + 1 := ⟨fuel - 2, by omega⟩
  refine ⟨Heap.settleProm
      (((h.setNode i
            { n with state := .halted, result := if res.truthy then res else n.result }).setNode i
          { n with state := .halted, result := if res.truthy then res else n.result,
                   parent := none }).setNode p { pn with children := pn.children.erase i })
      pid (.rejectedHalt (if res.truthy then res else n.result)),
    ?_, ?_, ?_, ?_, ?_, ?_⟩
  · simp [finalize, run, unlink, finalizePromise, Heap.setNode, Heap.modifyNode,
      Heap.settleProm, hi, hb, hch, hparent, hpr, hpp, hp, hps, hpi, hpi.symm,
      Option.bind]
  · simp [Heap.settleProm, Heap.setNode, hpp, hpi, hpi.symm]
  · simp [Heap.settleProm, Heap.setNode, hpp, hpi, hpi.symm]
  · simp [Heap.settleProm, Heap.setNode, hpp]
  · intro j hji hjp
    simp [Heap.settleProm, Heap.setNode, hpp, hji, hjp]
  · intro q hq
    simp [Heap.settleProm, Heap.setNode, hpp, hq]

def w7Heap : Heap :=
  { nodes := fun j =>
      if j = 0 then some { state := .running, exitHooks := [10, 11, 12],
                           parent := some 1, promiseId := some 0 }
      else if j = 1 then some { state := .running, children := [0] }
      else none
    promises := fun q => if q = 0 then some .pending else none
    nextProm := 1 }

theorem claim7_witness :
    ∃ h', finalize (fun hid => hid == 11) 9 w7Heap 0 .halted (.raw true 3) =
        some (h', [Ev.hookRun 12 false, Ev.hookRun 11 true, Ev.hookRun 10 false]) ∧
      h'.nodes 0 = some { state := .halted, result := .raw true 3,
                          exitHooks := [10, 11, 12], parent := none,
                          promiseId := some 0 } ∧
      h'.nodes 1 = some { state := .running, children := ([0] : List Nat).erase 0 } ∧
      h'.promises 0 = some (.rejectedHalt (.raw true 3)) ∧
      (∀ j, j ≠ 0 → j ≠ 1 → h'.nodes j = w7Heap.nodes j) ∧
      (∀ q, q ≠ 0 → h'.promises q = w7Heap.promises q) :=
  claim7_hooks_reverse_isolated (fun hid => hid == 11) 9 w7Heap 0 1 0
    { state := .running, exitHooks := [10, 11, 12], parent := some 1, promiseId := some 0 }
    { state := .running, children := [0] } (.raw true 3)
    (by omega) rfl rfl rfl rfl rfl rfl rfl rfl (by decide)


def c4Heap : Heap := mkHeap
  [(0, { state := .completed, children := [1] }),
   (1, { state := .running, parent := some 0, children := [2] }),
   (2, { state := .running, parent := some 1 })]

/-- C4 is refuted in its sparing clause: node 1 (child of the settled node 0)
finalizes as completed returning its own child 2 with blockOnReturnedContext
false, so the claim says child 2 is spared (not halted); but the hand-off via
trapExit makes the settled node 0 adopt 2, and link under a non-blocking
parent halts it — child 2 ends halted. -/
theorem claim4_counterexample :
    ((c4Heap.nodes 1).map Node.blockOnReturnedContext = some false ∧
     c4Heap.childrenOf 1 = some [2] ∧ c4Heap.stateOf 0 = some .completed) ∧
    (finalize (fun _ => false) 12 c4Heap 1 .completed (.ctx 2)).map
        (fun r => (r.1.stateOf 2, r.1.stateOf 1))
      = some (some .halted, some .completed) := by decide

/-- C4 corrected: when a node finalizes, the cascade halts every child of the
snapshot in reverse insertion order, with the finalize result argument as the
halt reason, sparing exactly the children with blockOnReturnedContext false
that are the context embedded in the node's own final stored result; the
spared child survives the cascade of a root node, but when the finalizing
node's own parent has already settled, the hand-off of the spared child to
that dead parent halts it after all. -/
theorem claim4_finalize_cascade (env : Nat → Bool) :
    (∀ fuel h i n st res, n.children.length + 4 ≤ fuel →
      h.nodes i = some n → n.isBlocking = true →
      (st = .completed ∨ st = .errored ∨ st = .halted) →
      n.parent = none → n.promiseId = none →
      n.children.Nodup → i ∉ n.children →
      (∀ c ∈ n.children, ∃ m, h.nodes c = some m ∧ m.isBlocking = true ∧
        m.parent = some i ∧ m.children = ([] : List Nat) ∧
        m.exitHooks = ([] : List Nat) ∧ m.promiseId = none) →
      ∃ h', finalize env fuel h i st res =
          some (h', (n.children.reverse.filter
              (haltCond n.blockOnReturnedContext (if res.truthy then res else n.result))).map
                (fun c => Ev.haltCall i c res)
            ++ n.exitHooks.reverse.map (fun hid => Ev.hookRun hid (env hid))) ∧
        (∀ c ∈ n.children, ∀ m, h.nodes c = some m →
          h'.nodes c = some (if haltCond n.blockOnReturnedContext
              (if res.truthy then res else n.result) c then
              { m with state := .halted, result := if res.truthy then res else m.result,
                       parent := none }
            else m))) ∧
    (∀ fuel h g i s gn nim sn, 7 ≤ fuel →
      h.nodes g = some gn → gn.isBlocking = false →
      h.nodes i = some nim → nim.isBlocking = true → nim.parent = some g →
      nim.children = [s] → nim.exitHooks = ([] : List Nat) → nim.promiseId = none →
      nim.blockOnReturnedContext = false →
      h.nodes s = some sn → sn.isBlocking = true → sn.parent = some i →
      sn.children = ([] : List Nat) → sn.exitHooks = ([] : List Nat) →
      sn.promiseId = none →
      g ≠ i → g ≠ s → i ≠ s →
      (finalize env fuel h i .completed (.ctx s)).map
          (fun r => (r.1.stateOf s, r.1.stateOf i))
        = some (some .halted, some .completed)) := by
  constructor
  · intro fuel h i n st res hfuel hi hb hst hpar hpr hnd hnin hch
    obtain ⟨h', hrun, -, hkids, -, -, -⟩ :=
      finalize_leaf env fuel h i n st res hfuel hi hb hst hpar hpr hnd hnin hch
    exact ⟨h', hrun, hkids⟩
  · intro fuel h g i s gn nim sn hfuel hg hgb hfi hib hip hich hihk hipr hibo
      hfs hsb hsp hsch hshk hspr hgi hgs his
    obtain ⟨f, rfl⟩ : ∃ f, fuel = f + 7 := ⟨fuel - 7, by omega⟩
    have hgw : gn.state ≠ .waiting := by
      intro e; rw [Node.isBlocking, e] at hgb; simp at hgb
    have hsi : s ≠ i := Ne.symm his
    have hsg : s ≠ g := Ne.symm hgs
    have hig : i ≠ g := Ne.symm hgi
    set n1 : Node := { nim with state := .completed, result := .ctx s } with hn1def
    set h1 : Heap := h.setNode i n1 with hh1def
    set hA : Heap := unlink h1 g i with hhAdef
    have hn1look : h1.nodes i = some n1 := by simp [hh1def, Heap.setNode]
    have h1g : h1.nodes g = some gn := by simp [hh1def, Heap.setNode, hgi, hg]
    have h1s : h1.nodes s = some sn := by simp [hh1def, Heap.setNode, hsi, hfs]
    have hAs : hA.nodes s = some sn := by
      simp [hhAdef, unlink, Heap.modifyNode, Heap.setNode, hn1look, h1g, h1s,
        hgi, hig, hsi, hsg, his, hgs]
    have hAi : hA.nodes i
        = some { nim with state := .completed, result := .ctx s, parent := none } := by
      simp [hhAdef, unlink, Heap.modifyNode, Heap.setNode, hn1look, h1g, hn1def,
        hgi, hig, hsi, hsg, his, hgs]
    have hAg : hA.nodes g = some { gn with children := gn.children.erase i } := by
      simp [hhAdef, unlink, Heap.modifyNode, Heap.setNode, hn1look, h1g,
        hgi, hig, hsi, hsg, his, hgs]
    obtain ⟨hB, hrunB, hBs, hBi, hBfr, hBpm, hBnp⟩ :=
      halt_leaf env (f+4) (by omega) hA
        s i sn { nim with state := .completed, result := .ctx s, parent := none }
        .undef hAs hsb hsp hsch hshk hspr hAi (by simp [Node.isBlocking]) hsi
    simp only [halt] at hrunB
    have hBg : hB.nodes g = some { gn with children := gn.children.erase i } := by
      rw [hBfr g hsg.symm hig.symm]; exact hAg
    have hBi2 : hB.nodes i
        = some { nim with state := .completed, result := .ctx s, parent := none,
                          children := ([] : List Nat) } := by
      rw [hBi]; simp [hich]
    have hBs2 : hB.nodes s
        = some { sn with state := .halted, parent := none } := by
      rw [hBs]; simp [Value.truthy]
    set hC : Heap := unlink hB g s with hhCdef
    have hCs : hC.nodes s = some { sn with state := .halted, parent := none } := by
      simp [hhCdef, unlink, Heap.modifyNode, Heap.setNode, hBs2, hBg,
        hgi, hig, hsi, hsg, his, hgs]
    have hCg : hC.nodes g
        = some { gn with children := (gn.children.erase i).erase s } := by
      simp [hhCdef, unlink, Heap.modifyNode, Heap.setNode, hBs2, hBg,
        hgi, hig, hsi, hsg, his, hgs]
    have hCi : hC.nodes i
        = some { nim with state := .completed, result := .ctx s, parent := none,
                          children := ([] : List Nat) } := by
      simp [hhCdef, unlink, Heap.modifyNode, Heap.setNode, hBs2, hBg, hBi2,
        hgi, hig, hsi, hsg, his, hgs]
    have e1 : run env (f+6) (Call.cascade i (Value.ctx s) [s]) h1 = some (h1, []) := by
      simp only [show f+6 = (f+5)+1 from rfl, show f+5 = (f+4)+1 from rfl]
      simp [run, hn1look, hn1def, hibo, contextOf]
    have e2 : run env (f+4) (Call.trapExit g s) hB = some (hC, []) := by
      simp only [show f+4 = (f+3)+1 from rfl]
      rw [run]
      simp only [← hhCdef, hCs, hCg]
      simp [hgw, hCs, hCg]
    have e3 : run env (f+5) (Call.link g s) hA = some (hC, []) := by
      have hgbE : ({ gn with children := gn.children.erase i } : Node).isBlocking
          = false := by simpa [Node.isBlocking] using hgb
      simp only [show f+5 = (f+4)+1 from rfl]
      rw [run]
      simp only [hgs, hAg, hgbE, Option.bind_eq_bind, Option.bind, reduceIte,
        Bool.not_false, if_true, if_false]
      rw [hrunB]
      simp [hBs2, Node.isBlocking, e2]
    have e4 : run env (f+6) (Call.trapExit g i) h1 = some (hC, []) := by
      simp only [show f+6 = (f+5)+1 from rfl]
      rw [run]
      simp only [← hhAdef, hAi, Option.bind_eq_bind, Option.bind, contextOf, reduceIte]
      rw [e3]
      simp [hCi, hCg, hgw]
    have e5 : finalizePromise hC i = hC := by
      simp [finalizePromise, hCi, hipr]
    have hn1par : n1.parent = some g := by simp [hn1def, hip]
    have hn1hooks : n1.exitHooks = ([] : List Nat) := by simp [hn1def, hihk]
    have hn1rev : n1.children.reverse = [s] := by simp [hn1def, hich]
    simp only [finalize, show f + 7 = (f+6)+1 from rfl]
    rw [run]
    simp only [hfi, hib, Option.bind_eq_bind, Option.bind, if_true, reduceIte,
      Value.truthy, ← hn1def, ← hh1def, hn1rev, e1, hn1look, hn1hooks, hn1par, e4]
    simp [hip, hihk, e4, e5, Heap.stateOf, hCs, hCi]


def w4Heap : Heap := mkHeap
  [(0, { state := .running, children := [1, 2, 3] }),
   (1, { state := .running, parent := some 0 }),
   (2, { state := .running, parent := some 0 }),
   (3, { state := .running, parent := some 0 })]

theorem claim4_witness :
    (∃ h', finalize (fun _ => false) 12 w4Heap 0 .completed (.ctx 2) =
        some (h', (([1, 2, 3] : List Nat).reverse.filter
            (haltCond false (if (Value.ctx 2).truthy then .ctx 2 else Value.undef))).map
              (fun c => Ev.haltCall 0 c (.ctx 2))
          ++ ([] : List Nat).reverse.map (fun hid => Ev.hookRun hid ((fun _ => false) hid))) ∧
      (∀ c ∈ ([1, 2, 3] : List Nat), ∀ m, w4Heap.nodes c = some m →
        h'.nodes c = some (if haltCond false
            (if (Value.ctx 2).truthy then .ctx 2 else Value.undef) c then
            { m with state := .halted,
                     result := if (Value.ctx 2).truthy then .ctx 2 else m.result,
                     parent := none }
          else m))) ∧
    ((finalize (fun _ => false) 12 c4Heap 1 .completed (.ctx 2)).map
        (fun r => (r.1.stateOf 2, r.1.stateOf 1))
      = some (some .halted, some .completed)) :=
  ⟨(claim4_finalize_cascade (fun _ => false)).1 12 w4Heap 0
      { state := .running, children := [1, 2, 3] } .completed (.ctx 2)
      (by decide) rfl rfl (Or.inl rfl) rfl rfl (by decide) (by decide)
      (by
        intro c hc
        have : c = 1 ∨ c = 2 ∨ c = 3 := by simpa using hc
        rcases this with rfl | rfl | rfl
        · exact ⟨{ state := .running, parent := some 0 }, rfl, rfl, rfl, rfl, rfl, rfl⟩
        · exact ⟨{ state := .running, parent := some 0 }, rfl, rfl, rfl, rfl, rfl, rfl⟩
        · exact ⟨{ state := .running, parent := some 0 }, rfl, rfl, rfl, rfl, rfl, rfl⟩),
   (claim4_finalize_cascade (fun _ => false)).2 12 c4Heap 0 1 2
      { state := .completed, children := [1] }
      { state := .running, parent := some 0, children := [2] }
      { state := .running, parent := some 1 }
      (by omega) rfl rfl rfl rfl rfl rfl rfl rfl rfl rfl rfl rfl rfl rfl rfl
      (by decide) (by decide) (by decide)⟩

end Effection
